import Mathlib

set_option maxRecDepth 10000

/-!
Verification development for `gitxposed.py`, a GitLab bulk-archiver.
Each Python routine is shallowly embedded as an executable Lean function;
network and filesystem effects are abstracted as explicit input functions
(page responses, per-attempt outcomes, per-item transfer outcomes).
-/

namespace Gitxposed

/-! ## Name sanitization (`sanitize_name`, gitxposed.py lines 19-23)

The source is `re.sub(r"[^a-zA-Z0-9_\\-]", "_", name)`.  In that raw
string the regex engine reads `\\` as an escaped literal backslash, so the
character class KEPT by the substitution is `a-z`, `A-Z`, `0-9`, `_`,
the backslash, and `-`; every other character becomes `_`. -/

/-- Characters kept unchanged by the source regex class `[^a-zA-Z0-9_\\-]`
(note the escaped literal backslash in the raw string). -/
def allowedChar (c : Char) : Bool :=
  (Char.ofNat 97 ≤ c && c ≤ Char.ofNat 122) ||
  (Char.ofNat 65 ≤ c && c ≤ Char.ofNat 90) ||
  (Char.ofNat 48 ≤ c && c ≤ Char.ofNat 57) ||
  c == Char.ofNat 95 || c == Char.ofNat 92 || c == Char.ofNat 45

/-- The character class the spec text names: `[A-Za-z0-9_-]` (no backslash).
Modelled from the spec's words, for comparison with `allowedChar`. -/
def specClassChar (c : Char) : Bool :=
  (Char.ofNat 97 ≤ c && c ≤ Char.ofNat 122) ||
  (Char.ofNat 65 ≤ c && c ≤ Char.ofNat 90) ||
  (Char.ofNat 48 ≤ c && c ≤ Char.ofNat 57) ||
  c == Char.ofNat 95 || c == Char.ofNat 45

/-- One character of the substitution: kept if in the regex class, else `_`. -/
def sanChar (c : Char) : Char :=
  if allowedChar c then c else Char.ofNat 95

/-- `sanitize_name` (lines 19-23): replace every character outside the regex
class with an underscore. -/
def sanitize_name (s : String) : String :=
  String.mk (s.data.map sanChar)

/-! ## Data model -/

/-- The fields of a project record that the pipeline consumes:
`id`, `name`, and the optional `default_branch`. -/
structure Project where
  id : Nat
  name : String
  default_branch : Option String
deriving DecidableEq, Repr

/-- A work item `(group_full_path, group_name, project)` as assembled in
`main` (line 348) and consumed by `download_in_parallel`. -/
structure WorkItem where
  full_path : String
  grp_name : String
  prj : Project
deriving DecidableEq, Repr

/-- A success entry `(grp_name, prj_name)` (line 230). -/
abbrev SEntry := String × String

/-- A failure entry `(grp_name, prj_data)` (lines 232 and 236): the full
project record is retained. -/
abbrev FEntry := String × Project

/-- What one call of the transfer unit does as observed by the dispatcher:
it returns a boolean, or raises an exception. -/
inductive TransferOutcome
  | returned (b : Bool)
  | raised
deriving DecidableEq, Repr

/-! ## Parallel dispatcher (`download_in_parallel`, lines 196-241)

The thread pool submits one future per element of `targets` (a dict keyed
by future objects, so duplicates in `targets` still get distinct futures)
and collects outcomes in completion order.  We embed the collection loop
over the completion-ordered list of work items: `run` gives each item's
outcome, a `True` return is appended to the success list, a `False`
return or a raised exception is appended to the failure list. -/

def download_in_parallel (run : WorkItem → TransferOutcome) :
    List WorkItem → List SEntry × List FEntry
  | [] => ([], [])
  | t :: ts =>
    let r := download_in_parallel run ts
    match run t with
    | .returned true => ((t.grp_name, t.prj.name) :: r.1, r.2)
    | .returned false => (r.1, (t.grp_name, t.prj) :: r.2)
    | .raised => (r.1, (t.grp_name, t.prj) :: r.2)

/-- Whether the dispatcher records an item as a success: exactly when its
transfer returned `True` (lines 228-236). -/
def isSuccessOutcome (o : TransferOutcome) : Bool :=
  match o with
  | .returned true => true
  | .returned false => false
  | .raised => false

lemma dispatch_succ_eq (run : WorkItem → TransferOutcome) (ts : List WorkItem) :
    (download_in_parallel run ts).1 =
      (ts.filter (fun t => isSuccessOutcome (run t))).map
        (fun t => (t.grp_name, t.prj.name)) := by
  induction ts with
  | nil => rfl
  | cons t ts ih =>
    rcases h : run t with b | _
    · cases b <;>
        simp [download_in_parallel, h, List.filter_cons, isSuccessOutcome, ih]
    · simp [download_in_parallel, h, List.filter_cons, isSuccessOutcome, ih]

lemma dispatch_fail_eq (run : WorkItem → TransferOutcome) (ts : List WorkItem) :
    (download_in_parallel run ts).2 =
      (ts.filter (fun t => !isSuccessOutcome (run t))).map
        (fun t => (t.grp_name, t.prj)) := by
  induction ts with
  | nil => rfl
  | cons t ts ih =>
    rcases h : run t with b | _
    · cases b <;>
        simp [download_in_parallel, h, List.filter_cons, isSuccessOutcome, ih]
    · simp [download_in_parallel, h, List.filter_cons, isSuccessOutcome, ih]

lemma dispatch_len (run : WorkItem → TransferOutcome) (ts : List WorkItem) :
    (download_in_parallel run ts).1.length + (download_in_parallel run ts).2.length
      = ts.length := by
  induction ts with
  | nil => rfl
  | cons t ts ih =>
    rcases h : run t with b | _
    · cases b <;> simp [download_in_parallel, h] <;> omega
    · simp [download_in_parallel, h]; omega

/-! ## Retry orchestration (`main`, lines 357-394)

Each round rebuilds `path_lookup` from the original `all_targets` (a dict
keyed by `(group_name, project_id)`, later entries overwriting earlier
ones), builds `failure_targets` from the current failure list (skipping,
with a warning, entries whose key is absent from the lookup), re-runs the
dispatcher on that batch, and stops when the new failure list is empty or
its length equals the previous round's.  `run` maps a round number and a
work item to that round's transfer outcome; the fuel argument makes the
a-priori-unbounded `while` loop a total function (`none` = fuel ran out
with the loop still running). -/

/-- The `path_lookup` dict of lines 363-365: maps `(g_name, prj.id)` to
`full_path`; built first-to-last, so the LAST matching entry wins. -/
def path_lookup : List WorkItem → String × Nat → Option String
  | [], _ => none
  | t :: ts, key =>
    match path_lookup ts key with
    | some v => some v
    | none => if (t.grp_name, t.prj.id) = key then some t.full_path else none

/-- The `failure_targets` list of lines 367-373: each failure entry whose
`(grp_name, prj.id)` key resolves in the lookup becomes a work item with
the looked-up path; unresolvable entries are skipped (warning printed). -/
def failure_targets (all_targets : List WorkItem) : List FEntry → List WorkItem
  | [] => []
  | e :: es =>
    match path_lookup all_targets (e.1, e.2.id) with
    | some fp => ⟨fp, e.1, e.2⟩ :: failure_targets all_targets es
    | none => failure_targets all_targets es

/-- The retry `while` loop of lines 357-394, with explicit fuel.
Returns `some (successes, failures)` when the loop exits, `none` when the
fuel is exhausted with the loop still running. -/
def retry_loop (all_targets : List WorkItem) (run : Nat → WorkItem → TransferOutcome) :
    Nat → Nat → List SEntry → List FEntry → Option (List SEntry × List FEntry)
  | 0, _, _, _ => none
  | fuel + 1, attempt, successes, failures =>
    if failures.isEmpty then some (successes, failures)
    else
      let ft := failure_targets all_targets failures
      let r := download_in_parallel (run attempt) ft
      if r.2.isEmpty then some (successes ++ r.1, [])
      else if r.2.length = failures.length then some (successes ++ r.1, r.2)
      else retry_loop all_targets run fuel (attempt + 1) (successes ++ r.1) r.2

lemma failure_targets_len (A : List WorkItem) (fs : List FEntry) :
    (failure_targets A fs).length ≤ fs.length := by
  induction fs with
  | nil => simp [failure_targets]
  | cons e es ih =>
    rcases h : path_lookup A (e.1, e.2.id) with _ | fp <;>
      simp [failure_targets, h] <;> omega

/-- Every work item in a round's retry batch has a key that resolves in
the lookup (to exactly its own path). -/
lemma failure_targets_resolvable (A : List WorkItem) (fs : List FEntry) :
    ∀ t ∈ failure_targets A fs,
      path_lookup A (t.grp_name, t.prj.id) = some t.full_path := by
  induction fs with
  | nil => simp [failure_targets]
  | cons e es ih =>
    intro t ht
    rcases h : path_lookup A (e.1, e.2.id) with _ | fp <;>
      rw [failure_targets, h] at ht
    · exact ih t ht
    · rcases List.mem_cons.1 ht with rfl | ht
      · simpa using h
      · exact ih t ht

/-- When every failure entry's key resolves, the retry batch has exactly
one work item per failure entry. -/
lemma failure_targets_len_eq (A : List WorkItem) (fs : List FEntry)
    (h : ∀ e ∈ fs, path_lookup A (e.1, e.2.id) ≠ none) :
    (failure_targets A fs).length = fs.length := by
  induction fs with
  | nil => simp [failure_targets]
  | cons e es ih =>
    rcases hk : path_lookup A (e.1, e.2.id) with _ | fp
    · exact absurd hk (h e (List.mem_cons_self e es))
    · have := ih (fun x hx => h x (List.mem_cons_of_mem e hx))
      simp [failure_targets, hk, this]

/-- Every failure entry the dispatcher emits is the `(grp_name, prj)` pair
of some submitted work item. -/
lemma dispatch_fail_mem (run : WorkItem → TransferOutcome) (ts : List WorkItem) :
    ∀ e ∈ (download_in_parallel run ts).2, ∃ t ∈ ts, e = (t.grp_name, t.prj) := by
  intro e he
  rw [dispatch_fail_eq] at he
  rcases List.mem_map.1 he with ⟨t, ht, rfl⟩
  exact ⟨t, List.mem_of_mem_filter ht, rfl⟩

/-! ## Paginated fetcher (lines 25-43, 45-61, 111-131)

`get_top_level_groups`, `get_subgroups_for_group` and
`get_projects_for_group` share one loop: request page 1, 2, … of an
endpoint; a non-200 status raises; an empty body breaks and returns the
accumulated elements; otherwise the body is appended and the next page
requested.  `resp` abstracts the endpoint (page number to response);
the fuel makes the loop total (`none` = fuel ran out). -/

/-- One page's response: an HTTP status and the decoded JSON list. -/
structure PageResponse (α : Type) where
  status : Nat
  body : List α
deriving DecidableEq, Repr

/-- Result of a whole paginated fetch: the concatenated elements, or the
exception raised on the first non-200 page (no partial results). -/
inductive FetchResult (α : Type)
  | ok (items : List α)
  | transportError (page : Nat)
deriving DecidableEq, Repr

/-- The shared pagination loop of `get_top_level_groups` (lines 25-43),
`get_subgroups_for_group` (45-61) and `get_projects_for_group` (111-131). -/
def fetch_all_pages {α : Type} (resp : Nat → PageResponse α) :
    Nat → Nat → List α → Option (FetchResult α)
  | 0, _, _ => none
  | fuel + 1, page, acc =>
    if (resp page).status ≠ 200 then some (.transportError page)
    else if (resp page).body.isEmpty then some (.ok acc)
    else fetch_all_pages resp fuel (page + 1) (acc ++ (resp page).body)

/-- The concatenation, in order, of the bodies of pages
`page, page+1, …, page+n-1`. -/
def pages_concat {α : Type} (resp : Nat → PageResponse α) : Nat → Nat → List α
  | _, 0 => []
  | page, n + 1 => (resp page).body ++ pages_concat resp (page + 1) n

/-! ## Transfer unit (`download_project_archive`, lines 133-194)

The local retry loop (lines 165-182): up to `max_attempts = 3` requests;
a 200 status breaks out, a non-200 status or a raised request exception
falls through; `time.sleep(3)` runs only when `attempt < max_attempts`.
`oc` abstracts the endpoint: what request attempt `i` does.  The loop
state is the last `response` bound (an exception leaves the previous
binding in place), exactly as in the source. -/

/-- What one request attempt does: returns a status, or raises. -/
inductive AttemptOutcome
  | ok (status : Nat)
  | exn
deriving DecidableEq, Repr

/-- The retry `for` loop of lines 168-178.  Arguments: attempt number,
remaining attempts (fuel = `max_attempts - attempt + 1`), last bound
response status, `time.sleep(3)` calls so far.  Returns the final
response, the number of attempts performed, and the number of sleeps. -/
def attempt_loop (oc : Nat → AttemptOutcome) :
    Nat → Nat → Option Nat → Nat → Option Nat × Nat × Nat
  | attempt, 0, response, sleeps => (response, attempt - 1, sleeps)
  | attempt, fuel + 1, response, sleeps =>
    match oc attempt with
    | .ok s =>
      if s = 200 then (some s, attempt, sleeps)
      else attempt_loop oc (attempt + 1) fuel (some s)
        (if 0 < fuel then sleeps + 1 else sleeps)
    | .exn =>
      attempt_loop oc (attempt + 1) fuel response
        (if 0 < fuel then sleeps + 1 else sleeps)

/-- Truthiness of `default_branch` in `if not default_branch` (line 147):
`None` and the empty string are falsy. -/
def branchTruthy (db : Option String) : Bool :=
  match db with
  | none => false
  | some s => !s.isEmpty

/-- Observable effects of one `download_project_archive` call. -/
structure TransferTrace where
  success : Bool
  requests : Nat
  bytesWritten : Nat
deriving DecidableEq, Repr

/-- `download_project_archive` (lines 133-194): no default branch is a
vacuous success with no request and no write; otherwise the retry loop
runs, a non-200 outcome is a failure, and on a 200 the body is streamed
to the new file (`writeOk` abstracts the write succeeding, `bodyLen` the
body size; a failed write discards the bytes and reports failure). -/
def download_project_archive (prj : Project) (oc : Nat → AttemptOutcome)
    (writeOk : Bool) (bodyLen : Nat) : TransferTrace :=
  if !branchTruthy prj.default_branch then ⟨true, 0, 0⟩
  else
    let r := attempt_loop oc 1 3 none 0
    if r.1 = some 200 then
      if writeOk then ⟨true, r.2.1, bodyLen⟩ else ⟨false, r.2.1, 0⟩
    else ⟨false, r.2.1, 0⟩

/-! ## Hierarchy walker (`get_hierarchical_groups`, lines 63-109)

Breadth-first traversal over the remote hierarchy.  `top` is the decoded
top-level group list (id, name); `subs` maps a group id to its decoded
subgroup list, or `none` when `get_subgroups_for_group` raises.
`os.path.join(parent, child)` is modelled as `parent ++ "/" ++ child`
(sanitized segments never start with a slash). -/

/-- A group record after the walker set its `full_path` key. -/
structure GEntry where
  id : Nat
  name : String
  full_path : String
deriving DecidableEq, Repr

/-- The BFS `while queue:` loop of lines 82-106, with fuel (one unit per
dequeue; `none` = fuel ran out).  A dequeued visited id is skipped; an
unvisited group is appended to the result, and each subgroup not yet
visited is enqueued with `full_path` assigned from the current group. -/
def bfs_loop (subs : Nat → Option (List (Nat × String))) :
    Nat → List GEntry → List Nat → List GEntry → Option (List GEntry)
  | _, [], _, acc => some acc
  | 0, _ :: _, _, _ => none
  | fuel + 1, g :: queue, visited, acc =>
    if g.id ∈ visited then bfs_loop subs fuel queue visited acc
    else
      match subs g.id with
      | none => bfs_loop subs fuel queue (g.id :: visited) (acc ++ [g])
      | some sl =>
        bfs_loop subs fuel
          (queue ++ (sl.filter (fun p => !((g.id :: visited).contains p.1))).map
            (fun p => ⟨p.1, p.2, g.full_path ++ "/" ++ sanitize_name p.2⟩))
          (g.id :: visited) (acc ++ [g])

/-- `get_hierarchical_groups` (lines 63-109): each top-level group gets
`full_path = sanitize_name name` and is enqueued; then the BFS runs. -/
def get_hierarchical_groups (top : List (Nat × String))
    (subs : Nat → Option (List (Nat × String))) (fuel : Nat) :
    Option (List GEntry) :=
  bfs_loop subs fuel (top.map (fun p => ⟨p.1, p.2, sanitize_name p.2⟩)) [] []

/-- An entry shaped like an enqueued top-level group: listed in `top`,
path its own sanitized name (lines 76-79). -/
def TopShaped (top : List (Nat × String)) (e : GEntry) : Prop :=
  (e.id, e.name) ∈ top ∧ e.full_path = sanitize_name e.name

/-- An entry shaped like an enqueued subgroup: some parent among
`parents` lists it, and its path is the parent's path joined with its
sanitized name (lines 100-106). -/
def ChildShaped (subs : Nat → Option (List (Nat × String)))
    (parents : List GEntry) (e : GEntry) : Prop :=
  ∃ p ∈ parents, ∃ sl, subs p.id = some sl ∧ (e.id, e.name) ∈ sl ∧
    e.full_path = p.full_path ++ "/" ++ sanitize_name e.name

/-! ## Helper lemmas for the transfer retry loop -/

/-- The `response` binding after one attempt: an attempt that got a
status rebinds it, a raised exception leaves the previous binding. -/
def next_response (o : AttemptOutcome) (r : Option Nat) : Option Nat :=
  match o with
  | .ok s => some s
  | .exn => r

lemma attempt_step (oc : Nat → AttemptOutcome) (a fuel : Nat) (r : Option Nat)
    (s : Nat) (h : oc a ≠ .ok 200) :
    attempt_loop oc a (fuel + 1) r s =
      attempt_loop oc (a + 1) fuel (next_response (oc a) r)
        (if 0 < fuel then s + 1 else s) := by
  rcases ho : oc a with st | _
  · have hst : st ≠ 200 := by rintro rfl; exact h ho
    simp [attempt_loop, ho, hst, next_response]
  · simp [attempt_loop, ho, next_response]

lemma next_response_ne (o : AttemptOutcome) (r : Option Nat)
    (ho : o ≠ .ok 200) (hr : r ≠ some 200) : next_response o r ≠ some 200 := by
  rcases o with st | _
  · simp only [next_response, Option.some.injEq]
    intro hst
    exact ho (by rw [Option.some.injEq] at hst; rw [hst])
  · simpa [next_response] using hr

lemma attempt_loop_first (oc : Nat → AttemptOutcome) (h : oc 1 = .ok 200) :
    attempt_loop oc 1 3 none 0 = (some 200, 1, 0) := by
  simp [attempt_loop, h]

lemma attempt_loop_second (oc : Nat → AttemptOutcome) (h1 : oc 1 ≠ .ok 200)
    (h2 : oc 2 = .ok 200) :
    attempt_loop oc 1 3 none 0 = (some 200, 2, 1) := by
  have e1 := attempt_step oc 1 2 none 0 h1
  simp only [show (0:Nat) < 2 from by omega, if_true] at e1
  rw [e1]
  simp [attempt_loop, h2]

lemma attempt_loop_third (oc : Nat → AttemptOutcome) (h1 : oc 1 ≠ .ok 200)
    (h2 : oc 2 ≠ .ok 200) (h3 : oc 3 = .ok 200) :
    attempt_loop oc 1 3 none 0 = (some 200, 3, 2) := by
  have e1 := attempt_step oc 1 2 none 0 h1
  simp only [show (0:Nat) < 2 from by omega, if_true] at e1
  have e2 := attempt_step oc 2 1 (next_response (oc 1) none) 1 h2
  simp only [show (0:Nat) < 1 from by omega, if_true] at e2
  rw [e1, e2]
  simp [attempt_loop, h3]

lemma attempt_loop_all_fail (oc : Nat → AttemptOutcome) (h1 : oc 1 ≠ .ok 200)
    (h2 : oc 2 ≠ .ok 200) (h3 : oc 3 ≠ .ok 200) :
    (attempt_loop oc 1 3 none 0).1 ≠ some 200 ∧
    (attempt_loop oc 1 3 none 0).2.1 = 3 ∧
    (attempt_loop oc 1 3 none 0).2.2 = 2 := by
  have e1 := attempt_step oc 1 2 none 0 h1
  simp only [show (0:Nat) < 2 from by omega, if_true] at e1
  have e2 := attempt_step oc 2 1 (next_response (oc 1) none) 1 h2
  simp only [show (0:Nat) < 1 from by omega, if_true] at e2
  have e3 := attempt_step oc 3 0 (next_response (oc 2) (next_response (oc 1) none)) 2 h3
  simp only [show ¬ ((0:Nat) < 0) from by omega, if_false] at e3
  have hne : next_response (oc 3) (next_response (oc 2) (next_response (oc 1) none))
      ≠ some 200 :=
    next_response_ne _ _ h3 (next_response_ne _ _ h2 (next_response_ne _ _ h1 (by simp)))
  rw [e1, e2, e3]
  exact ⟨hne, rfl, rfl⟩

/-- An endpoint whose first two attempts raise and whose third returns 200. -/
def ocFailTwice : Nat → AttemptOutcome :=
  fun i => if i ≤ 2 then .exn else .ok 200

/-- An endpoint that returns HTTP 500 on every attempt. -/
def ocFailThrice : Nat → AttemptOutcome :=
  fun _ => .ok 500

/-! ## Shared lemmas for sanitization -/

lemma sanChar_idem (c : Char) : sanChar (sanChar c) = sanChar c := by
  by_cases h : allowedChar c
  · simp [sanChar, h]
  · have h95 : allowedChar (Char.ofNat 95) = true := by decide
    simp [sanChar, h, h95]

lemma sanitize_name_idem (s : String) :
    sanitize_name (sanitize_name s) = sanitize_name s := by
  show String.mk (((s.data.map sanChar)).map sanChar) = String.mk (s.data.map sanChar)
  rw [List.map_map]
  exact congrArg String.mk (List.map_congr_left (fun c _ => sanChar_idem c))

/-! ## Demo inputs -/

/-- A demo work item: group path `g`, group name `G`, project 1. -/
def wA : WorkItem := ⟨"g", "G", ⟨1, "p", some "main"⟩⟩

/-- A demo work item: group path `h`, group name `H`, project 2. -/
def wB : WorkItem := ⟨"h", "H", ⟨2, "q", some "dev"⟩⟩

/-- A transfer behaviour: project 1 returns `True`, everything else raises. -/
def runAB : WorkItem → TransferOutcome :=
  fun t => if t.prj.id = 1 then .returned true else .raised

/-! ## Claims -/

/-- C5, counterexample: the claim says `sanitize_name` replaces exactly the
characters outside `[A-Za-z0-9_-]` with `_`.  The backslash (code 92) is
outside that class, yet the regex `[^a-zA-Z0-9_\\-]` keeps it (the raw
string's `\\` is an escaped literal backslash), so a backslash input is
returned unchanged instead of becoming `_`. -/
theorem C5_sanitize_cex :
    specClassChar (Char.ofNat 92) = false ∧
    sanitize_name "\\" = "\\" ∧ sanitize_name "\\" ≠ "_" := by
  decide

/-- C5, amended: the class of characters `sanitize_name` keeps is exactly
`[A-Za-z0-9_-]` PLUS the backslash; every character outside that enlarged
class is replaced with `_`.  The spec's example still holds, and the
function is idempotent. -/
theorem C5_sanitize_amended :
    (∀ c : Char, allowedChar c = true ↔
      (specClassChar c = true ∨ c = Char.ofNat 92)) ∧
    sanitize_name "My Repo/Name!" = "My_Repo_Name_" ∧
    (∀ s : String, sanitize_name (sanitize_name s) = sanitize_name s) := by
  refine ⟨?_, by decide, sanitize_name_idem⟩
  intro c
  simp only [allowedChar, specClassChar, Bool.or_eq_true, Bool.and_eq_true,
    decide_eq_true_eq, beq_iff_eq]
  tauto

/-- C1: for every batch handed to `download_in_parallel` (the collection
loop sees the submitted items in some completion order, a permutation of
`targets`), `successes.length + failures.length = targets.length`; the
success list is exactly the items whose transfer returned `True` and the
failure list exactly the items that returned `False` or raised — each
item contributes exactly one outcome, none dropped or duplicated. -/
theorem C1_dispatcher_partition (run : WorkItem → TransferOutcome)
    (targets completed : List WorkItem) (hperm : targets.Perm completed) :
    (download_in_parallel run completed).1.length
        + (download_in_parallel run completed).2.length = targets.length ∧
    (download_in_parallel run completed).1 =
      (completed.filter (fun t => isSuccessOutcome (run t))).map
        (fun t => (t.grp_name, t.prj.name)) ∧
    (download_in_parallel run completed).2 =
      (completed.filter (fun t => !isSuccessOutcome (run t))).map
        (fun t => (t.grp_name, t.prj)) := by
  refine ⟨?_, dispatch_succ_eq run completed, dispatch_fail_eq run completed⟩
  rw [dispatch_len run completed, hperm.length_eq]

/-- C1 witness: the two-item batch `[wA, wB]` completing in the order
`[wB, wA]`, with `wA` succeeding and `wB` raising. -/
theorem C1_dispatcher_partition_witness :
    ([wA, wB] : List WorkItem).Perm [wB, wA] ∧
    (download_in_parallel runAB [wB, wA]).1.length
        + (download_in_parallel runAB [wB, wA]).2.length
      = ([wA, wB] : List WorkItem).length :=
  ⟨List.Perm.swap wB wA [],
   (C1_dispatcher_partition runAB [wA, wB] [wB, wA] (List.Perm.swap wB wA [])).1⟩

/-- C10: a retry round's new failure count never exceeds the previous
failure count: the round's batch is built only from the previous failure
entries that resolve in the lookup, and the dispatcher emits at most one
failure per batch entry. -/
theorem C10_failure_count_monotone (A : List WorkItem)
    (run : WorkItem → TransferOutcome) (fs : List FEntry) :
    (download_in_parallel run (failure_targets A fs)).2.length ≤ fs.length := by
  have h1 := dispatch_len run (failure_targets A fs)
  have h2 := failure_targets_len A fs
  omega

/-- C9: a project whose `default_branch` is absent/null is reported as a
success with no request issued and no bytes written. -/
theorem C9_no_default_branch (prj : Project) (oc : Nat → AttemptOutcome)
    (writeOk : Bool) (bodyLen : Nat) (h : prj.default_branch = none) :
    download_project_archive prj oc writeOk bodyLen = ⟨true, 0, 0⟩ := by
  simp [download_project_archive, branchTruthy, h]

/-- C9 witness: a concrete branchless project, against an endpoint that
would raise on every attempt. -/
theorem C9_no_default_branch_witness :
    (Project.mk 7 "empty" none).default_branch = none ∧
    download_project_archive ⟨7, "empty", none⟩ (fun _ => .exn) true 99
      = ⟨true, 0, 0⟩ :=
  ⟨rfl, C9_no_default_branch ⟨7, "empty", none⟩ (fun _ => .exn) true 99 rfl⟩

/-- C8: the transfer unit's retry loop performs at most 3 attempts; the
inter-attempt sleep count is always one less than the number of attempts
performed (a delay between consecutive attempts, none after the last);
the loop ends with a 200 response exactly when some of the first 3
attempts returns 200; when attempt `i` is the first to return 200 the
loop stops there, having performed exactly `i` attempts and `i - 1`
sleeps; and concretely, an endpoint failing twice then succeeding on the
3rd attempt ends in success after 3 attempts and 2 sleeps, while an
endpoint failing all 3 times ends without a 200 response. -/
theorem C8_transfer_retry :
    (∀ oc : Nat → AttemptOutcome,
      (attempt_loop oc 1 3 none 0).2.1 ≤ 3 ∧
      (attempt_loop oc 1 3 none 0).2.2 = (attempt_loop oc 1 3 none 0).2.1 - 1 ∧
      ((attempt_loop oc 1 3 none 0).1 = some 200 ↔
        ∃ i, 1 ≤ i ∧ i ≤ 3 ∧ oc i = .ok 200)) ∧
    (∀ oc : Nat → AttemptOutcome, ∀ i, 1 ≤ i → i ≤ 3 → oc i = .ok 200 →
      (∀ j, 1 ≤ j → j < i → oc j ≠ .ok 200) →
      attempt_loop oc 1 3 none 0 = (some 200, i, i - 1)) ∧
    attempt_loop ocFailTwice 1 3 none 0 = (some 200, 3, 2) ∧
    (attempt_loop ocFailThrice 1 3 none 0).1 ≠ some 200 := by
  have main : ∀ oc : Nat → AttemptOutcome,
      (attempt_loop oc 1 3 none 0).2.1 ≤ 3 ∧
      (attempt_loop oc 1 3 none 0).2.2 = (attempt_loop oc 1 3 none 0).2.1 - 1 ∧
      ((attempt_loop oc 1 3 none 0).1 = some 200 ↔
        ∃ i, 1 ≤ i ∧ i ≤ 3 ∧ oc i = .ok 200) := by
    intro oc
    by_cases h1 : oc 1 = .ok 200
    · rw [attempt_loop_first oc h1]
      refine ⟨by decide, rfl, ?_⟩
      exact ⟨fun _ => ⟨1, by omega, by omega, h1⟩, fun _ => rfl⟩
    · by_cases h2 : oc 2 = .ok 200
      · rw [attempt_loop_second oc h1 h2]
        refine ⟨by decide, rfl, ?_⟩
        exact ⟨fun _ => ⟨2, by omega, by omega, h2⟩, fun _ => rfl⟩
      · by_cases h3 : oc 3 = .ok 200
        · rw [attempt_loop_third oc h1 h2 h3]
          refine ⟨by decide, rfl, ?_⟩
          exact ⟨fun _ => ⟨3, by omega, by omega, h3⟩, fun _ => rfl⟩
        · obtain ⟨hne, hcnt, hslp⟩ := attempt_loop_all_fail oc h1 h2 h3
          refine ⟨by omega, by omega, ?_⟩
          constructor
          · intro h; exact absurd h hne
          · rintro ⟨i, hi1, hi3, hok⟩
            interval_cases i
            · exact absurd hok h1
            · exact absurd hok h2
            · exact absurd hok h3
  refine ⟨main, ?_, ?_, ?_⟩
  · intro oc i hi1 hi3 hok hfirst
    interval_cases i
    · exact attempt_loop_first oc hok
    · exact attempt_loop_second oc (hfirst 1 (by omega) (by omega)) hok
    · exact attempt_loop_third oc (hfirst 1 (by omega) (by omega))
        (hfirst 2 (by omega) (by omega)) hok
  · decide
  · decide

/-- C8 witness: the stop-at-first-success clause applied to the endpoint
that raises twice and returns 200 on the 3rd attempt. -/
theorem C8_transfer_retry_witness :
    ocFailTwice 3 = .ok 200 ∧
    attempt_loop ocFailTwice 1 3 none 0 = (some 200, 3, 3 - 1) :=
  ⟨by decide,
   C8_transfer_retry.2.1 ocFailTwice 3 (by omega) (by omega) (by decide)
     (fun j hj1 hj3 => by interval_cases j <;> decide)⟩

/-! ## Lemmas for the paginated fetcher -/

lemma fetch_ok_general {α : Type} (resp : Nat → PageResponse α) (k : Nat)
    (hstat : ∀ p, 1 ≤ p → p ≤ k → (resp p).status = 200)
    (hempty : (resp k).body = [])
    (hne : ∀ p, 1 ≤ p → p < k → (resp p).body ≠ []) :
    ∀ fuel page acc, 1 ≤ page → page ≤ k → k - page < fuel →
      fetch_all_pages resp fuel page acc
        = some (.ok (acc ++ pages_concat resp page (k - page))) := by
  intro fuel
  induction fuel with
  | zero => intro page acc _ _ h3; omega
  | succ f ih =>
    intro page acc h1 h2 h3
    have hs := hstat page h1 h2
    by_cases hpk : page = k
    · subst hpk
      rw [fetch_all_pages, if_neg (by simp [hs]), if_pos (by simp [hempty]),
        Nat.sub_self, pages_concat]
      simp
    · have hlt : page < k := lt_of_le_of_ne h2 hpk
      have hb := hne page h1 hlt
      have hie : (resp page).body.isEmpty = false := by
        rcases hbody : (resp page).body with _ | ⟨x, xs⟩
        · exact absurd hbody hb
        · rfl
      have hstep : k - page = (k - (page + 1)) + 1 := by omega
      rw [fetch_all_pages, if_neg (by simp [hs]), if_neg (by simp [hie]),
        ih (page + 1) (acc ++ (resp page).body) (by omega) (by omega) (by omega),
        hstep, pages_concat]
      simp [List.append_assoc]

lemma fetch_err_general {α : Type} (resp : Nat → PageResponse α) (m : Nat)
    (hok : ∀ p, 1 ≤ p → p < m → (resp p).status = 200 ∧ (resp p).body ≠ [])
    (herr : (resp m).status ≠ 200) :
    ∀ fuel page acc, 1 ≤ page → page ≤ m → m - page < fuel →
      fetch_all_pages resp fuel page acc = some (.transportError m) := by
  intro fuel
  induction fuel with
  | zero => intro page acc _ _ h3; omega
  | succ f ih =>
    intro page acc h1 h2 h3
    by_cases hpm : page = m
    · subst hpm
      rw [fetch_all_pages, if_pos herr]
    · have hlt : page < m := lt_of_le_of_ne h2 hpm
      obtain ⟨hs, hb⟩ := hok page h1 hlt
      have hie : (resp page).body.isEmpty = false := by
        rcases hbody : (resp page).body with _ | ⟨x, xs⟩
        · exact absurd hbody hb
        · rfl
      rw [fetch_all_pages, if_neg (by simp [hs]), if_neg (by simp [hie])]
      exact ih (page + 1) (acc ++ (resp page).body) (by omega) (by omega) (by omega)

/-- A demo endpoint: pages of 100, 100 and 37 distinct elements, then an
empty page, all with status 200. -/
def demoPages : Nat → PageResponse Nat :=
  fun p =>
    if p = 1 then ⟨200, List.range 100⟩
    else if p = 2 then ⟨200, (List.range 100).map (fun i => 100 + i)⟩
    else if p = 3 then ⟨200, (List.range 37).map (fun i => 200 + i)⟩
    else ⟨200, []⟩

/-- A demo endpoint whose first two pages succeed with one element each
and whose third page fails with HTTP 500. -/
def errPages : Nat → PageResponse Nat :=
  fun p => if p ≤ 2 then ⟨200, [p]⟩ else ⟨500, [p]⟩

/-- C6: when every page up to the first empty one (page `k`) has status
200, the fetch loop requests pages 1, 2, … in order, stops at page `k`,
and returns the concatenation of the bodies of pages `1 … k-1` in
original order; in particular, pages of 100, 100 and 37 elements
followed by an empty page yield exactly the 237 elements `0 … 236` in
order. -/
theorem C6_paginated_fetch :
    (∀ (α : Type) (resp : Nat → PageResponse α) (k : Nat), 1 ≤ k →
      (∀ p, 1 ≤ p → p ≤ k → (resp p).status = 200) →
      (resp k).body = [] →
      (∀ p, 1 ≤ p → p < k → (resp p).body ≠ []) →
      ∀ fuel, k ≤ fuel →
        fetch_all_pages resp fuel 1 []
          = some (.ok (pages_concat resp 1 (k - 1)))) ∧
    fetch_all_pages demoPages 4 1 [] = some (.ok (List.range 237)) ∧
    pages_concat demoPages 1 3 = List.range 237 := by
  refine ⟨?_, by decide, by decide⟩
  intro α resp k hk hstat hempty hne fuel hfuel
  have := fetch_ok_general resp k hstat hempty hne fuel 1 [] (by omega)
    (by omega) (by omega)
  simpa using this

/-- C6 witness: the general clause applied to the 100/100/37/empty
endpoint. -/
theorem C6_paginated_fetch_witness :
    fetch_all_pages demoPages 4 1 []
      = some (.ok (pages_concat demoPages 1 (4 - 1))) :=
  C6_paginated_fetch.1 Nat demoPages 4 (by omega)
    (fun p _ h2 => by interval_cases p <;> rfl)
    rfl
    (fun p h1 h2 => by interval_cases p <;> decide)
    4 (by omega)

/-- C7: if page `m` of a paginated fetch returns a non-200 status (all
earlier pages being successful and non-empty), the whole fetch resolves
to a raised transport error carrying no elements — no partial results —
no matter how many pages were already retrieved; concretely, two good
pages followed by an HTTP 500 yield `transportError 3`. -/
theorem C7_paginated_fetch_abort :
    (∀ (α : Type) (resp : Nat → PageResponse α) (m : Nat), 1 ≤ m →
      (∀ p, 1 ≤ p → p < m → (resp p).status = 200 ∧ (resp p).body ≠ []) →
      (resp m).status ≠ 200 →
      ∀ fuel, m ≤ fuel →
        fetch_all_pages resp fuel 1 [] = some (.transportError m)) ∧
    fetch_all_pages errPages 5 1 [] = some (.transportError 3) := by
  refine ⟨?_, by decide⟩
  intro α resp m hm hok herr fuel hfuel
  exact fetch_err_general resp m hok herr fuel 1 [] (by omega) (by omega) (by omega)

/-- C7 witness: the general clause applied to the endpoint failing on
page 3. -/
theorem C7_paginated_fetch_abort_witness :
    fetch_all_pages errPages 3 1 [] = some (.transportError 3) :=
  C7_paginated_fetch_abort.1 Nat errPages 3 (by omega)
    (fun p h1 h2 => by interval_cases p <;> exact ⟨rfl, by decide⟩)
    (by decide)
    3 (by omega)

/-! ## Lemmas for the retry orchestrator -/

/-- Failure entries coming out of a dispatched retry batch still have
resolvable lookup keys. -/
lemma dispatch_fail_resolvable (A : List WorkItem) (run : WorkItem → TransferOutcome)
    (fs : List FEntry) :
    ∀ e ∈ (download_in_parallel run (failure_targets A fs)).2,
      path_lookup A (e.1, e.2.id) ≠ none := by
  intro e he
  obtain ⟨t, ht, rfl⟩ := dispatch_fail_mem run (failure_targets A fs) e he
  have hres := failure_targets_resolvable A fs t ht
  simp [hres]

/-- The retry loop always terminates: fuel `failures.length + 1` is
enough, because a continuing round strictly shrinks the failure list. -/
lemma retry_loop_total (A : List WorkItem) (run : Nat → WorkItem → TransferOutcome) :
    ∀ fuel attempt s (f : List FEntry), f.length < fuel →
      (retry_loop A run fuel attempt s f).isSome = true := by
  intro fuel
  induction fuel with
  | zero => intro a s f h; omega
  | succ fl ih =>
    intro a s f h
    rcases f with _ | ⟨e, es⟩
    · rw [retry_loop]; simp
    · rw [retry_loop]
      simp only [List.isEmpty_cons, Bool.false_eq_true, if_false]
      by_cases h2 : (download_in_parallel (run a) (failure_targets A (e :: es))).2.isEmpty
      · rw [if_pos h2]; rfl
      · rw [if_neg h2]
        by_cases h3 : (download_in_parallel (run a)
            (failure_targets A (e :: es))).2.length = (e :: es).length
        · rw [if_pos h3]; rfl
        · rw [if_neg h3]
          apply ih
          have hle := dispatch_len (run a) (failure_targets A (e :: es))
          have hft := failure_targets_len A (e :: es)
          omega

/-- When every failure entry resolves in the lookup and every round
strictly shrinks the failure list, the loop ends with no failures and
one accumulated success per initial failure. -/
lemma retry_loop_shrink (A : List WorkItem) (run : Nat → WorkItem → TransferOutcome)
    (hshrink : ∀ a (fs : List FEntry), fs ≠ [] →
      (download_in_parallel (run a) (failure_targets A fs)).2.length < fs.length) :
    ∀ fuel a s (f : List FEntry), (∀ e ∈ f, path_lookup A (e.1, e.2.id) ≠ none) →
      ∀ s' f', retry_loop A run fuel a s f = some (s', f') →
        f' = [] ∧ s'.length = s.length + f.length := by
  intro fuel
  induction fuel with
  | zero => intro a s f _ s' f' h; exact absurd h (by rw [retry_loop]; simp)
  | succ fl ih =>
    intro a s f hres s' f' h
    rcases f with _ | ⟨e, es⟩
    · rw [retry_loop] at h
      simp only [List.isEmpty_nil, if_true, Option.some.injEq, Prod.mk.injEq] at h
      obtain ⟨rfl, rfl⟩ := h
      exact ⟨rfl, by simp⟩
    · rw [retry_loop] at h
      simp only [List.isEmpty_cons, Bool.false_eq_true, if_false] at h
      have hftlen : (failure_targets A (e :: es)).length = (e :: es).length :=
        failure_targets_len_eq A (e :: es) hres
      have hdlen := dispatch_len (run a) (failure_targets A (e :: es))
      have hlt := hshrink a (e :: es) (by simp)
      by_cases h2 : (download_in_parallel (run a) (failure_targets A (e :: es))).2.isEmpty
      · rw [if_pos h2] at h
        have h2nil : (download_in_parallel (run a)
            (failure_targets A (e :: es))).2 = [] := by
          simpa [List.isEmpty_iff] using h2
        simp only [Option.some.injEq, Prod.mk.injEq] at h
        obtain ⟨rfl, rfl⟩ := h
        refine ⟨rfl, ?_⟩
        rw [List.length_append]
        rw [h2nil] at hdlen
        simp only [List.length_nil] at hdlen
        omega
      · rw [if_neg h2] at h
        by_cases h3 : (download_in_parallel (run a)
            (failure_targets A (e :: es))).2.length = (e :: es).length
        · exact absurd h3 (by omega)
        · rw [if_neg h3] at h
          obtain ⟨hf', hs'⟩ := ih (a + 1)
            (s ++ (download_in_parallel (run a) (failure_targets A (e :: es))).1)
            (download_in_parallel (run a) (failure_targets A (e :: es))).2
            (dispatch_fail_resolvable A (run a) (e :: es)) s' f' h
          refine ⟨hf', ?_⟩
          rw [hs', List.length_append]
          omega

/-- Every entry of the failure set the loop finally returns has a
resolvable lookup key: an unresolvable entry cannot survive into the
final failure accounting. -/
lemma retry_loop_final_resolvable (A : List WorkItem)
    (run : Nat → WorkItem → TransferOutcome) :
    ∀ fuel a s (f : List FEntry) s' f',
      retry_loop A run fuel a s f = some (s', f') →
      ∀ e ∈ f', path_lookup A (e.1, e.2.id) ≠ none := by
  intro fuel
  induction fuel with
  | zero => intro a s f s' f' h; exact absurd h (by rw [retry_loop]; simp)
  | succ fl ih =>
    intro a s f s' f' h
    rcases f with _ | ⟨e, es⟩
    · rw [retry_loop] at h
      simp only [List.isEmpty_nil, if_true, Option.some.injEq, Prod.mk.injEq] at h
      obtain ⟨-, rfl⟩ := h
      intro e he; exact absurd he (List.not_mem_nil e)
    · rw [retry_loop] at h
      simp only [List.isEmpty_cons, Bool.false_eq_true, if_false] at h
      by_cases h2 : (download_in_parallel (run a) (failure_targets A (e :: es))).2.isEmpty
      · rw [if_pos h2] at h
        simp only [Option.some.injEq, Prod.mk.injEq] at h
        obtain ⟨-, rfl⟩ := h
        intro x hx; exact absurd hx (List.not_mem_nil x)
      · rw [if_neg h2] at h
        by_cases h3 : (download_in_parallel (run a)
            (failure_targets A (e :: es))).2.length = (e :: es).length
        · rw [if_pos h3] at h
          simp only [Option.some.injEq, Prod.mk.injEq] at h
          obtain ⟨-, rfl⟩ := h
          exact dispatch_fail_resolvable A (run a) (e :: es)
        · rw [if_neg h3] at h
          exact ih (a + 1)
            (s ++ (download_in_parallel (run a) (failure_targets A (e :: es))).1)
            (download_in_parallel (run a) (failure_targets A (e :: es))).2 s' f' h

/-- A transfer behaviour that succeeds on every item, every round. -/
def runOk : Nat → WorkItem → TransferOutcome := fun _ _ => .returned true

/-- A transfer behaviour that returns `False` on every item, every round. -/
def runBad : Nat → WorkItem → TransferOutcome := fun _ _ => .returned false

lemma dispatch_runOk_fail_nil (a : Nat) (ts : List WorkItem) :
    (download_in_parallel (runOk a) ts).2 = [] := by
  rw [dispatch_fail_eq]
  simp [runOk, isSuccessOutcome]

/-- The failure entry of work item `wA`, as the dispatcher would emit it. -/
def fG : FEntry := ("G", ⟨1, "p", some "main"⟩)

/-- A failure entry whose `(group_name, project_id)` key resolves in no
lookup built from the demo work-item lists. -/
def orphanF : FEntry := ("X", ⟨42, "ghost", some "main"⟩)

/-- C2: the retry loop terminates for every run — fuel
`failures.length + 1` always suffices, because a continuing round
strictly shrinks the failure list; when every round strictly shrinks the
failure set (and the initial failure entries resolve in the lookup) the
loop ends with an empty failure set, having turned every initial failure
into exactly one accumulated success; and a round that reproduces the
previous round's failure count makes the loop stop right there,
accumulating that round's successes and surfacing its failures. -/
theorem C2_retry_orchestrator :
    (∀ (A : List WorkItem) (run : Nat → WorkItem → TransferOutcome)
        (attempt : Nat) (s : List SEntry) (f : List FEntry),
      (retry_loop A run (f.length + 1) attempt s f).isSome = true) ∧
    (∀ (A : List WorkItem) (run : Nat → WorkItem → TransferOutcome),
      (∀ a (fs : List FEntry), fs ≠ [] →
        (download_in_parallel (run a) (failure_targets A fs)).2.length < fs.length) →
      ∀ fuel a s (f : List FEntry), (∀ e ∈ f, path_lookup A (e.1, e.2.id) ≠ none) →
        ∀ s' f', retry_loop A run fuel a s f = some (s', f') →
          f' = [] ∧ s'.length = s.length + f.length) ∧
    (∀ (A : List WorkItem) (run : Nat → WorkItem → TransferOutcome)
        (fuel a : Nat) (s : List SEntry) (f : List FEntry), f ≠ [] →
      (download_in_parallel (run a) (failure_targets A f)).2 ≠ [] →
      (download_in_parallel (run a) (failure_targets A f)).2.length = f.length →
      retry_loop A run (fuel + 1) a s f
        = some (s ++ (download_in_parallel (run a) (failure_targets A f)).1,
            (download_in_parallel (run a) (failure_targets A f)).2)) := by
  refine ⟨fun A run a s f => retry_loop_total A run (f.length + 1) a s f (by omega),
    fun A run hshrink => retry_loop_shrink A run hshrink, ?_⟩
  intro A run fuel a s f hf hnf hlen
  rcases f with _ | ⟨e, es⟩
  · exact absurd rfl hf
  · rw [retry_loop]
    simp only [List.isEmpty_cons, Bool.false_eq_true, if_false]
    have h2 : ¬((download_in_parallel (run a)
        (failure_targets A (e :: es))).2.isEmpty = true) := by
      simpa [List.isEmpty_iff] using hnf
    rw [if_neg h2, if_pos hlen]

/-- C2 witness: termination at fuel `len+1` on an always-failing run; the
shrink clause on an always-succeeding run; the stall clause on an
always-failing run (whose round reproduces the failure count 1). -/
theorem C2_retry_orchestrator_witness :
    (retry_loop [wA] runBad ([fG].length + 1) 1 [] [fG]).isSome = true ∧
    (([] : List FEntry) = [] ∧
      ([("G", "p")] : List SEntry).length = ([] : List SEntry).length + [fG].length) ∧
    retry_loop [wA] runBad (0 + 1) 1 [] [fG]
      = some ([] ++ (download_in_parallel (runBad 1) (failure_targets [wA] [fG])).1,
          (download_in_parallel (runBad 1) (failure_targets [wA] [fG])).2) := by
  refine ⟨C2_retry_orchestrator.1 [wA] runBad 1 [] [fG], ?_, ?_⟩
  · exact C2_retry_orchestrator.2.1 [wA] runOk
      (fun a fs hfs => by
        rw [dispatch_runOk_fail_nil a (failure_targets [wA] fs)]
        simpa [List.length_pos] using hfs)
      2 1 [] [fG] (fun e he => by
        rcases List.mem_singleton.1 he with rfl
        decide)
      [("G", "p")] [] (by decide)
  · exact C2_retry_orchestrator.2.2 [wA] runBad 0 1 [] [fG] (by decide)
      (by decide) (by decide)

/-- C3 counterexample: the claim says a failed item whose
`(group_name, project_id)` key does not resolve in the lookup remains in
the failure set for subsequent rounds and for the final failure
accounting.  In the code it does not: with an empty original work-item
list the key of `orphanF` resolves to nothing, the round dispatches an
empty batch, the new-failure-set-empty exit fires, and the loop returns
with an EMPTY failure set — the never-retried item has vanished from the
accounting (and is in the success list of no round either). -/
theorem C3_lookup_skip_cex :
    path_lookup [] (orphanF.1, orphanF.2.id) = none ∧
    retry_loop [] runBad 2 1 [] [orphanF] = some ([], []) := by
  exact ⟨rfl, rfl⟩

/-- C3 amended: a failed item whose `(group_name, project_id)` key cannot
be resolved via the lookup is skipped for the round — it is placed in no
round's retry batch — and it is dropped from the failure accounting: the
failure set the loop finally returns contains only entries whose keys
resolve, so the unresolvable item is in neither the final failure set
nor any round's dispatched batch. -/
theorem C3_lookup_skip_amended :
    (∀ (A : List WorkItem) (fs : List FEntry) (g : String) (p : Project),
      path_lookup A (g, p.id) = none →
      ∀ t ∈ failure_targets A fs, (t.grp_name, t.prj.id) ≠ (g, p.id)) ∧
    (∀ (A : List WorkItem) (run : Nat → WorkItem → TransferOutcome)
        (fuel a : Nat) (s : List SEntry) (f : List FEntry) s' f',
      retry_loop A run fuel a s f = some (s', f') →
      ∀ e ∈ f', path_lookup A (e.1, e.2.id) ≠ none) := by
  constructor
  · intro A fs g p hnone t ht heq
    have hres := failure_targets_resolvable A fs t ht
    rw [heq, hnone] at hres
    exact Option.noConfusion hres
  · intro A run fuel a s f s' f' h
    exact retry_loop_final_resolvable A run fuel a s f s' f' h

/-- C3 amended witness: the unresolvable entry `orphanF` against the
empty work-item list. -/
theorem C3_lookup_skip_amended_witness :
    path_lookup [] ("X", (42 : Nat)) = none ∧
    (∀ t ∈ failure_targets [] [orphanF], (t.grp_name, t.prj.id) ≠ ("X", 42)) :=
  ⟨rfl, C3_lookup_skip_amended.1 [] [orphanF] "X" ⟨42, "ghost", some "main"⟩ rfl⟩

/-! ## Lemmas for the hierarchy walker -/

lemma childShaped_mono (subs : Nat → Option (List (Nat × String)))
    (acc : List GEntry) (g : GEntry) (e : GEntry)
    (h : ChildShaped subs acc e) : ChildShaped subs (acc ++ [g]) e := by
  obtain ⟨p, hp, rest⟩ := h
  exact ⟨p, List.mem_append_left _ hp, rest⟩

/-- BFS invariant: if the processed list's ids mirror the visited set
(which is duplicate-free) and every processed / queued entry is either a
top-level entry or a recorded child of a processed entry, then a
completed walk returns a list with duplicate-free ids in which every
entry is a top-level entry or a recorded child of a returned entry. -/
lemma bfs_loop_sound (top : List (Nat × String))
    (subs : Nat → Option (List (Nat × String))) :
    ∀ fuel (queue : List GEntry) (visited : List Nat) (acc l : List GEntry),
      acc.map GEntry.id = visited.reverse →
      visited.Nodup →
      (∀ e ∈ acc, TopShaped top e ∨ ChildShaped subs acc e) →
      (∀ e ∈ queue, TopShaped top e ∨ ChildShaped subs acc e) →
      bfs_loop subs fuel queue visited acc = some l →
      (l.map GEntry.id).Nodup ∧
      (∀ e ∈ l, TopShaped top e ∨ ChildShaped subs l e) := by
  intro fuel
  induction fuel with
  | zero =>
    intro queue visited acc l hmap hnd hacc hqueue h
    rcases queue with _ | ⟨g, qs⟩
    · simp only [bfs_loop, Option.some.injEq] at h
      subst h
      exact ⟨by rw [hmap]; exact List.nodup_reverse.mpr hnd, hacc⟩
    · exact absurd h (by simp [bfs_loop])
  | succ fl ih =>
    intro queue visited acc l hmap hnd hacc hqueue h
    rcases queue with _ | ⟨g, qs⟩
    · simp only [bfs_loop, Option.some.injEq] at h
      subst h
      exact ⟨by rw [hmap]; exact List.nodup_reverse.mpr hnd, hacc⟩
    · simp only [bfs_loop] at h
      by_cases hv : g.id ∈ visited
      · rw [if_pos hv] at h
        exact ih qs visited acc l hmap hnd hacc
          (fun e he => hqueue e (List.mem_cons_of_mem g he)) h
      · rw [if_neg hv] at h
        have hmap' : (acc ++ [g]).map GEntry.id = (g.id :: visited).reverse := by
          simp [hmap]
        have hnd' : (g.id :: visited).Nodup := List.nodup_cons.mpr ⟨hv, hnd⟩
        have hgood_g : TopShaped top g ∨ ChildShaped subs (acc ++ [g]) g :=
          (hqueue g (List.mem_cons_self g qs)).imp id (childShaped_mono subs acc g g)
        have hacc' : ∀ e ∈ acc ++ [g],
            TopShaped top e ∨ ChildShaped subs (acc ++ [g]) e := by
          intro e he
          rcases List.mem_append.1 he with he | he
          · exact (hacc e he).imp id (childShaped_mono subs acc g e)
          · rcases List.mem_singleton.1 he with rfl
            exact hgood_g
        rcases hs : subs g.id with _ | sl
        · rw [hs] at h
          exact ih qs (g.id :: visited) (acc ++ [g]) l hmap' hnd' hacc'
            (fun e he =>
              (hqueue e (List.mem_cons_of_mem g he)).imp id
                (childShaped_mono subs acc g e)) h
        · rw [hs] at h
          refine ih _ (g.id :: visited) (acc ++ [g]) l hmap' hnd' hacc' ?_ h
          intro e he
          rcases List.mem_append.1 he with he | he
          · exact (hqueue e (List.mem_cons_of_mem g he)).imp id
              (childShaped_mono subs acc g e)
          · rcases List.mem_map.1 he with ⟨p, hp, rfl⟩
            right
            refine ⟨g, List.mem_append_right acc (List.mem_singleton.2 rfl),
              sl, hs, ?_, rfl⟩
            have hmem : p ∈ sl := List.mem_of_mem_filter hp
            simpa using hmem

/-- A demo hierarchy: top groups `a` (id 1) and `b` (id 2); fetching the
subgroups of 1 fails; 2 has one subgroup `c` (id 3) with no subgroups. -/
def demoTop : List (Nat × String) := [(1, "a"), (2, "b")]

/-- Subgroup fetch behaviour for the demo hierarchy. -/
def demoSubs : Nat → Option (List (Nat × String)) :=
  fun i => if i = 1 then none else if i = 2 then some [(3, "c")] else some []

/-- C4: every list the hierarchy walker returns has duplicate-free group
ids, and each returned entry is either a top-level group whose path is
its own sanitized name or a recorded subgroup of some returned parent
whose path is the parent's (already final, enqueue-time) path joined
with the entry's sanitized name — independent of when the parent was
processed; concretely, in a hierarchy where fetching group 1's subgroups
fails, group 1 and the already-queued group 2 (and 2's subgroup) are all
still returned with their correct paths. -/
theorem C4_hierarchy_walker :
    (∀ (top : List (Nat × String)) (subs : Nat → Option (List (Nat × String)))
        (fuel : Nat) (l : List GEntry),
      get_hierarchical_groups top subs fuel = some l →
      (l.map GEntry.id).Nodup ∧
      (∀ e ∈ l, TopShaped top e ∨ ChildShaped subs l e)) ∧
    get_hierarchical_groups demoTop demoSubs 8
      = some [⟨1, "a", "a"⟩, ⟨2, "b", "b"⟩, ⟨3, "c", "b/c"⟩] := by
  constructor
  · intro top subs fuel l h
    refine bfs_loop_sound top subs fuel _ [] [] l (by simp) List.nodup_nil
      (by intro e he; exact absurd he (List.not_mem_nil e)) ?_ h
    intro e he
    rcases List.mem_map.1 he with ⟨p, hp, rfl⟩
    exact Or.inl ⟨by simpa using hp, rfl⟩
  · decide

/-- C4 witness: the soundness clause applied to the demo hierarchy. -/
theorem C4_hierarchy_walker_witness :
    ((([⟨1, "a", "a"⟩, ⟨2, "b", "b"⟩, ⟨3, "c", "b/c"⟩] : List GEntry).map
        GEntry.id).Nodup ∧
     (∀ e ∈ ([⟨1, "a", "a"⟩, ⟨2, "b", "b"⟩, ⟨3, "c", "b/c"⟩] : List GEntry),
        TopShaped demoTop e ∨
          ChildShaped demoSubs
            [⟨1, "a", "a"⟩, ⟨2, "b", "b"⟩, ⟨3, "c", "b/c"⟩] e)) :=
  C4_hierarchy_walker.1 demoTop demoSubs 8
    [⟨1, "a", "a"⟩, ⟨2, "b", "b"⟩, ⟨3, "c", "b/c"⟩] (by decide)

end Gitxposed
